import Mathlib

/-!
Verification of the string-literal detection engine of the text-translator
repository (`StringDetector` in the TypeScript source).  The detector is
embedded shallowly: a document is a `List Char`, a line is the segment
between line-feed characters, and each regular expression of the source is
translated into an executable matcher with the exact semantics of the
JavaScript `RegExp.exec` loop the source runs (leftmost match at or after
the current cursor, cursor advanced past each match, per-line cursor reset).
Character classes are modelled over ASCII, matching what the source regexes
do on the inputs of interest.
-/

namespace TextTranslator

/-- Character used for single-quoted strings. -/
def singleQuote : Char := Char.ofNat 39

/-- Character used for template literals. -/
def backtick : Char := Char.ofNat 96

/-- Whitespace as matched by the JavaScript class backslash-s and by
`String.prototype.trim`, restricted to ASCII. -/
def isJsSpace (c : Char) : Bool :=
  c = ' ' || c = '\t' || c = '\n' || c = '\r' || c = Char.ofNat 11 || c = Char.ofNat 12

/-- JavaScript `String.prototype.trim`: drop whitespace from both ends. -/
def jsTrim (cs : List Char) : List Char :=
  ((cs.dropWhile isJsSpace).reverse.dropWhile isJsSpace).reverse

/-- The JavaScript word-character class: letters, digits and underscore. -/
def isWordChar (c : Char) : Bool :=
  c.isAlpha || c.isDigit || c = '_'

/-- The code-punctuation characters of `looksLikeCode`. -/
def isCodePunct (c : Char) : Bool :=
  c = '{' || c = '}' || c = '[' || c = ']' || c = '(' || c = ')' || c = ';' || c = ','

/-- Heuristic 1 of `looksLikeCode`: a single bare identifier. -/
def isSingleIdentifier (cs : List Char) : Bool :=
  match cs with
  | [] => false
  | c :: rest => (c.isAlpha || c = '_') && rest.all (fun d => d.isAlpha || d.isDigit || d = '_')

/-- Heuristic 2 of `looksLikeCode`: digits only. -/
def isAllDigits (cs : List Char) : Bool :=
  !cs.isEmpty && cs.all Char.isDigit

/-- Heuristic 3 of `looksLikeCode`: a filename- or URL-like token, word
characters, hyphens and dots ending in a dot and a 2-4 letter extension. -/
def isFileToken (cs : List Char) : Bool :=
  (List.range cs.length).any fun j =>
    decide (1 ≤ j) && cs.getD j ' ' = '.' &&
      (cs.take j).all (fun c => isWordChar c || c = '-' || c = '.') &&
      (cs.drop (j+1)).all Char.isAlpha &&
      decide (2 ≤ (cs.drop (j+1)).length) && decide ((cs.drop (j+1)).length ≤ 4)

/-- Heuristic 4 of `looksLikeCode`: a selector- or variable-like token, a
leading hash, at-sign or dollar followed by at least one word or hyphen
character. -/
def isSelectorToken (cs : List Char) : Bool :=
  match cs with
  | c0 :: c1 :: _ => (c0 = '#' || c0 = '@' || c0 = '$') && (isWordChar c1 || c1 = '-')
  | _ => false

/-- Heuristic 5 of `looksLikeCode`: contains any code punctuation. -/
def hasCodePunct (cs : List Char) : Bool :=
  cs.any isCodePunct

/-- Heuristic 6 of `looksLikeCode`: empty or whitespace only. -/
def isBlankText (cs : List Char) : Bool :=
  cs.all isJsSpace

/-- Heuristic 7 of `looksLikeCode`: a single key-colon-value shaped token
whose two sides consist of word characters and whitespace. -/
def isKeyValueToken (cs : List Char) : Bool :=
  (List.range cs.length).any fun j =>
    cs.getD j ' ' = ':' &&
      (cs.take j).all (fun c => isWordChar c || isJsSpace c) &&
      (cs.drop (j+1)).all (fun c => isWordChar c || isJsSpace c)

/-- Heuristic 8 of `looksLikeCode`: a function-call shaped token, an
identifier followed by a parenthesised remainder ending the text. -/
def isCallToken (cs : List Char) : Bool :=
  (List.range cs.length).any fun j =>
    decide (1 ≤ j) && cs.getD j ' ' = '(' && (cs.take j).all isWordChar &&
      !(cs.drop (j+1)).isEmpty && (cs.drop (j+1)).getLast? = some ')' &&
      (cs.drop (j+1)).dropLast.all (fun c => !(c = '\n' || c = '\r'))

/-- Heuristic 9 of `looksLikeCode`: starts with a comparison bracket, or
contains a two-character comparison or logical operator. -/
def hasOperatorToken (cs : List Char) : Bool :=
  (match cs with
   | c :: _ => c = '<' || c = '>'
   | [] => false) ||
  (cs.zip cs.tail).any (fun p =>
    ((p.1 = '!' || p.1 = '=') && p.2 = '=') ||
    ((p.1 = '&' || p.1 = '|') && (p.2 = '&' || p.2 = '|')))

/-- The `looksLikeCode` filter of the source: content is rejected when any of
the nine heuristics matches. -/
def looksLikeCode (cs : List Char) : Bool :=
  isSingleIdentifier cs || isAllDigits cs || isFileToken cs || isSelectorToken cs ||
  hasCodePunct cs || isBlankText cs || isKeyValueToken cs || isCallToken cs ||
  hasOperatorToken cs

/-- A detected string literal, as produced by the detector. -/
structure DetectedString where
  text : List Char
  line : Nat
  startChar : Nat
  endChar : Nat
  quoteType : String
  languageId : String
deriving DecidableEq, Repr

/-- The shape of one string pattern of `getStringPatterns`. -/
inductive PatternKind where
  | quote (delim : Char)
  | triple (delim : Char)
  | verbatim
deriving DecidableEq, Repr

/-- One named pattern, as in the pattern list of the source. -/
structure StringPattern where
  name : String
  kind : PatternKind
deriving DecidableEq, Repr

/-- Body of a quote pattern after the opening delimiter: characters other
than the delimiter and backslash, or a backslash followed by any character
that is not a line terminator, then the closing delimiter.  Returns the
number of characters consumed (closing delimiter included) and the captured
content. -/
def quoteBody (d : Char) : List Char → Option (Nat × List Char)
  | [] => none
  | c :: rest =>
    if c = d then some (1, [])
    else if c = '\\' then
      match rest with
      | [] => none
      | e :: rest2 =>
        if e = '\n' || e = '\r' then none
        else
          match quoteBody d rest2 with
          | some (n, cs) => some (n + 2, c :: e :: cs)
          | none => none
    else
      match quoteBody d rest with
      | some (n, cs) => some (n + 1, c :: cs)
      | none => none

/-- Remainder of a triple-quoted pattern after the opening delimiters: the
lazy body runs to the first occurrence of three delimiters.  Returns the
number of characters consumed (closing delimiters included) and the
captured content. -/
def tripleClose (d : Char) : List Char → Option (Nat × List Char)
  | [] => none
  | a :: rest =>
    match rest with
    | b :: c :: _ =>
      if a = d && b = d && c = d then some (3, [])
      else
        match tripleClose d rest with
        | some (n, cs) => some (n + 1, a :: cs)
        | none => none
    | _ => none

/-- Body of the verbatim pattern after the opening at-sign and quote:
non-quote characters and doubled-quote pairs, then a closing quote; the
greedy pair group backtracks to a close when no later close exists. -/
def verbatimBody : List Char → Option (Nat × List Char)
  | [] => none
  | c :: rest =>
    if c = '"' then
      match rest with
      | e :: rest2 =>
        if e = '"' then
          match verbatimBody rest2 with
          | some (n, cs) => some (n + 2, c :: e :: cs)
          | none => some (1, [])
        else some (1, [])
      | [] => some (1, [])
    else
      match verbatimBody rest with
      | some (n, cs) => some (n + 1, c :: cs)
      | none => none

/-- Try to match a pattern at the head of a suffix of the line.  Returns the
full match length and the captured content. -/
def matchAtSuffix (k : PatternKind) (s : List Char) : Option (Nat × List Char) :=
  match k, s with
  | .quote d, c :: rest =>
    if c = d then
      match quoteBody d rest with
      | some (n, cs) => some (n + 1, cs)
      | none => none
    else none
  | .triple d, a :: rest =>
    (match rest with
     | b :: c :: rest2 =>
       if a = d && b = d && c = d then
         match tripleClose d rest2 with
         | some (n, cs) => some (n + 3, cs)
         | none => none
       else none
     | _ => none)
  | .verbatim, a :: rest =>
    (match rest with
     | b :: rest2 =>
       if a = '@' && b = '"' then
         match verbatimBody rest2 with
         | some (n, cs) => some (n + 2, cs)
         | none => none
       else none
     | _ => none)
  | _, [] => none

/-- The exec loop of the source for one global pattern on one line: at each
position try the pattern; on a match record it and continue past it, else
advance one character.  The fuel argument bounds the recursion and is
always at least the length of the remaining suffix. -/
def scanWithFuel (k : PatternKind) : Nat → List Char → Nat → List (Nat × Nat × List Char)
  | 0, _, _ => []
  | _ + 1, [], _ => []
  | fuel + 1, c :: rest, pos =>
    match matchAtSuffix k (c :: rest) with
    | some (n, cs) => (pos, n, cs) :: scanWithFuel k fuel ((c :: rest).drop n) (pos + n)
    | none => scanWithFuel k fuel rest (pos + 1)

/-- All matches of one pattern on one line, as `(startChar, length, content)`
triples, in left-to-right order. -/
def execPattern (k : PatternKind) (line : List Char) : List (Nat × Nat × List Char) :=
  scanWithFuel k line.length line 0

/-- The two base patterns, applied for every language. -/
def basePatterns : List StringPattern :=
  [⟨"double", .quote '"'⟩, ⟨"single", .quote singleQuote⟩]

/-- The pattern list of `getStringPatterns`: the base patterns followed by
the dialect patterns selected by the language identifier.  The php case of
the source adds nothing (heredoc and nowdoc are only a comment there), so
it yields the base patterns, as does every unrecognized identifier. -/
def getStringPatterns (languageId : String) : List StringPattern :=
  if languageId = "javascript" || languageId = "typescript" ||
     languageId = "javascriptreact" || languageId = "typescriptreact" then
    basePatterns ++ [⟨"template", .quote backtick⟩]
  else if languageId = "python" then
    basePatterns ++ [⟨"triple-double", .triple '"'⟩, ⟨"triple-single", .triple singleQuote⟩]
  else if languageId = "csharp" || languageId = "fsharp" then
    basePatterns ++ [⟨"verbatim", .verbatim⟩]
  else if languageId = "php" then
    basePatterns
  else
    basePatterns

/-- The acceptance filter of `extractStringsFromLine`: skip empty content,
content whose trimmed length is below two, and code-like content. -/
def keepString (cs : List Char) : Bool :=
  !(cs.isEmpty || decide ((jsTrim cs).length < 2)) && !looksLikeCode cs

/-- `extractStringsFromLine` of the source: run every pattern over the line,
keep the accepted matches, and record them with the full match span. -/
def extractStringsFromLine (line : List Char) (lineIndex : Nat) (languageId : String) :
    List DetectedString :=
  (getStringPatterns languageId).flatMap fun p =>
    (execPattern p.kind line).filterMap fun m =>
      if keepString m.2.2 then
        some { text := m.2.2, line := lineIndex, startChar := m.1,
               endChar := m.1 + m.2.1, quoteType := p.name, languageId := languageId }
      else none

/-- Split a document on line feeds, as `String.prototype.split` does: a
trailing carriage return stays part of its line. -/
def splitOnNl (l : List Char) : List (List Char) :=
  match l with
  | [] => [[]]
  | c :: rest =>
    if c = '\n' then [] :: splitOnNl rest
    else
      match splitOnNl rest with
      | [] => [[c]]
      | h :: t => (c :: h) :: t

/-- `detectStrings` of the source: split into lines and collect each line's
extracted strings in line order. -/
def detectStrings (documentText : List Char) (languageId : String) : List DetectedString :=
  ((splitOnNl documentText).enum).flatMap fun il =>
    extractStringsFromLine il.2 il.1 languageId

/-- An unexpected error raised inside the scanning loop. -/
structure ScanError where
  message : String

/-- The try-catch wrapper of `detectStrings`: the scan body either returns a
result list or raises; the catch clause logs and returns the empty list. -/
def detectStringsCaught (outcome : Except ScanError (List DetectedString)) :
    List DetectedString :=
  match outcome with
  | Except.ok found => found
  | Except.error _ => []

/-- The language identifiers named by a case of the dialect switch. -/
def knownLanguageIds : List String :=
  ["javascript", "typescript", "javascriptreact", "typescriptreact",
   "python", "csharp", "fsharp", "php"]

/-- Sample detection used to instantiate the span invariant. -/
def c3Sample : DetectedString :=
  { text := ("good morning").data, line := 0, startChar := 0, endChar := 14,
    quoteType := "double", languageId := "plaintext" }

/-- Sample detection used to instantiate the no-punctuation invariant. -/
def c9Sample : DetectedString :=
  { text := ("nice day today").data, line := 0, startChar := 4, endChar := 20,
    quoteType := "single", languageId := "plaintext" }

/-- Position of a quote-kind tag in the pattern-application order of a
language: the index of the tag in the language's pattern-name list. -/
def patternRank (languageId : String) (q : String) : Nat :=
  ((getStringPatterns languageId).map (fun p => p.name)).indexOf q

end TextTranslator

namespace TextTranslator

/-- Unrecognized language identifiers select exactly the base patterns. -/
theorem getStringPatterns_eq_base (L : String) (h : L ∉ knownLanguageIds) :
    getStringPatterns L = basePatterns := by
  simp only [knownLanguageIds, List.mem_cons, List.not_mem_nil, or_false, not_or] at h
  obtain ⟨h1, h2, h3, h4, h5, h6, h7, h8⟩ := h
  simp [getStringPatterns, h1, h2, h3, h4, h5, h6, h7, h8]


/-- One-step unfolding of `quoteBody` on a non-empty suffix. -/
theorem quoteBody_cons (d c : Char) (rest : List Char) :
    quoteBody d (c :: rest) =
      if c = d then some (1, [])
      else if c = '\\' then
        match rest with
        | [] => none
        | e :: rest2 =>
          if e = '\n' || e = '\r' then none
          else
            match quoteBody d rest2 with
            | some (n, cs) => some (n + 2, c :: e :: cs)
            | none => none
      else
        match quoteBody d rest with
        | some (n, cs) => some (n + 1, c :: cs)
        | none => none := by
  rw [quoteBody.eq_def]

/-- One-step unfolding of `tripleClose` on a non-empty suffix. -/
theorem tripleClose_cons (d a : Char) (rest : List Char) :
    tripleClose d (a :: rest) =
      match rest with
      | b :: c :: _ =>
        if a = d && b = d && c = d then some (3, [])
        else
          match tripleClose d rest with
          | some (n, cs) => some (n + 1, a :: cs)
          | none => none
      | _ => none := by
  rw [tripleClose.eq_def]

/-- One-step unfolding of `verbatimBody` on a non-empty suffix. -/
theorem verbatimBody_cons (c : Char) (rest : List Char) :
    verbatimBody (c :: rest) =
      (if c = '"' then
        match rest with
        | e :: rest2 =>
          if e = '"' then
            match verbatimBody rest2 with
            | some (n, cs) => some (n + 2, c :: e :: cs)
            | none => some (1, [])
          else some (1, [])
        | [] => some (1, [])
      else
        match verbatimBody rest with
        | some (n, cs) => some (n + 1, c :: cs)
        | none => none) := by
  rw [verbatimBody.eq_def]

/-- Bound for the quote-pattern body: a successful parse consumes at least
the closing delimiter and no more than the remaining suffix. -/
theorem quoteBody_bounds (d : Char) :
    ∀ (k : Nat) (s : List Char), s.length ≤ k → ∀ (n : Nat) (cs : List Char),
      quoteBody d s = some (n, cs) → 1 ≤ n ∧ n ≤ s.length := by
  intro k
  induction k with
  | zero =>
    intro s hs n cs h
    cases s with
    | nil => simp [quoteBody] at h
    | cons c rest => simp at hs
  | succ k ih =>
    intro s hs n cs h
    cases s with
    | nil => simp [quoteBody] at h
    | cons c rest =>
      rw [quoteBody_cons] at h
      split at h
      · injection h with h'
        injection h' with h1 h2
        subst h1
        simp
      · split at h
        · split at h
          · simp at h
          · rename_i e rest2
            split at h
            · simp at h
            · split at h
              · rename_i res m ds hm
                injection h with h'
                injection h' with h1 h2
                subst h1
                have hb := ih rest2 (by simp only [List.length_cons] at hs ⊢; omega) m ds hm
                simp only [List.length_cons] at hb ⊢
                omega
              · simp at h
        · split at h
          · rename_i res m ds hm
            injection h with h'
            injection h' with h1 h2
            subst h1
            have hb := ih rest (by simp only [List.length_cons] at hs ⊢; omega) m ds hm
            simp only [List.length_cons] at hb ⊢
            omega
          · simp at h

/-- Bound for the triple-quote remainder: a successful parse consumes at
least the closing delimiters and no more than the remaining suffix. -/
theorem tripleClose_bounds (d : Char) :
    ∀ (k : Nat) (s : List Char), s.length ≤ k → ∀ (n : Nat) (cs : List Char),
      tripleClose d s = some (n, cs) → 1 ≤ n ∧ n ≤ s.length := by
  intro k
  induction k with
  | zero =>
    intro s hs n cs h
    cases s with
    | nil => simp [tripleClose] at h
    | cons c rest => simp at hs
  | succ k ih =>
    intro s hs n cs h
    cases s with
    | nil => simp [tripleClose] at h
    | cons a rest =>
      rw [tripleClose_cons] at h
      split at h
      · split at h
        · injection h with h'
          injection h' with h1 h2
          subst h1
          simp only [List.length_cons]
          omega
        · split at h
          · rename_i rest0 b c tail hcond x m ds hm
            injection h with h'
            injection h' with h1 h2
            subst h1
            have hb := ih (b :: c :: tail) (by simp only [List.length_cons] at hs ⊢; omega) m ds hm
            simp only [List.length_cons] at hb ⊢
            omega
          · simp at h
      · simp at h

/-- Bound for the verbatim-pattern body: a successful parse consumes at
least the closing quote and no more than the remaining suffix. -/
theorem verbatimBody_bounds :
    ∀ (k : Nat) (s : List Char), s.length ≤ k → ∀ (n : Nat) (cs : List Char),
      verbatimBody s = some (n, cs) → 1 ≤ n ∧ n ≤ s.length := by
  intro k
  induction k with
  | zero =>
    intro s hs n cs h
    cases s with
    | nil => simp [verbatimBody] at h
    | cons c rest => simp at hs
  | succ k ih =>
    intro s hs n cs h
    cases s with
    | nil => simp [verbatimBody] at h
    | cons c rest =>
      rw [verbatimBody_cons] at h
      split at h
      · split at h
        · split at h
          · split at h
            · rename_i e rest2 hquote x m ds hm
              injection h with h'
              injection h' with h1 h2
              subst h1
              have hb := ih rest2 (by simp only [List.length_cons] at hs ⊢; omega) m ds hm
              simp only [List.length_cons] at hb ⊢
              omega
            · injection h with h'
              injection h' with h1 h2
              subst h1
              simp only [List.length_cons]
              omega
          · injection h with h'
            injection h' with h1 h2
            subst h1
            simp only [List.length_cons]
            omega
        · injection h with h'
          injection h' with h1 h2
          subst h1
          simp
      · split at h
        · rename_i hq x m ds hm
          injection h with h'
          injection h' with h1 h2
          subst h1
          have hb := ih rest (by simp only [List.length_cons] at hs ⊢; omega) m ds hm
          simp only [List.length_cons] at hb ⊢
          omega
        · simp at h

/-- Bound for one pattern match: a match is at least two characters long
(both delimiters) and stays inside the suffix it was tried on. -/
theorem matchAtSuffix_bounds (k : PatternKind) (s : List Char) (n : Nat) (cs : List Char)
    (h : matchAtSuffix k s = some (n, cs)) : 2 ≤ n ∧ n ≤ s.length := by
  rw [matchAtSuffix.eq_def] at h
  split at h
  · rename_i d c rest
    split at h
    · split at h
      · rename_i hcd x m ds hm
        injection h with h'
        injection h' with h1 h2
        subst h1
        have hb := quoteBody_bounds d rest.length rest le_rfl m ds hm
        simp only [List.length_cons]
        omega
      · simp at h
    · simp at h
  · rename_i d a rest
    split at h
    · rename_i rest0 b c rest2
      split at h
      · split at h
        · rename_i hcond x m ds hm
          injection h with h'
          injection h' with h1 h2
          subst h1
          have hb := tripleClose_bounds d rest2.length rest2 le_rfl m ds hm
          simp only [List.length_cons]
          omega
        · simp at h
      · simp at h
    · simp at h
  · rename_i a rest
    split at h
    · rename_i rest0 b rest2
      split at h
      · split at h
        · rename_i hab x m ds hm
          injection h with h'
          injection h' with h1 h2
          subst h1
          have hb := verbatimBody_bounds rest2.length rest2 le_rfl m ds hm
          simp only [List.length_cons]
          omega
        · simp at h
      · simp at h
    · simp at h
  · simp at h


/-- Every triple produced by the scan loop starts at or after the cursor,
spans at least two characters, and ends inside the line. -/
theorem scanWithFuel_mem (k : PatternKind) :
    ∀ (fuel : Nat) (s : List Char) (pos i n : Nat) (cs : List Char),
      (i, n, cs) ∈ scanWithFuel k fuel s pos →
      pos ≤ i ∧ 2 ≤ n ∧ i + n ≤ pos + s.length := by
  intro fuel
  induction fuel with
  | zero =>
    intro s pos i n cs h
    simp [scanWithFuel] at h
  | succ fuel ih =>
    intro s pos i n cs h
    cases s with
    | nil => simp [scanWithFuel] at h
    | cons c rest =>
      simp only [scanWithFuel] at h
      split at h
      · rename_i x m ds hm
        rcases List.mem_cons.mp h with h | h
        · injection h with h1 h'
          injection h' with h2 h3
          subst h1
          subst h2
          have hb := matchAtSuffix_bounds k (c :: rest) _ _ hm
          simp only [List.length_cons] at hb ⊢
          omega
        · have ht := ih _ _ _ _ _ h
          have hb := matchAtSuffix_bounds k (c :: rest) m ds hm
          rw [List.length_drop] at ht
          simp only [List.length_cons] at hb ht ⊢
          omega
      · have ht := ih _ _ _ _ _ h
        simp only [List.length_cons] at ht ⊢
        omega

/-- The scan loop produces matches with strictly increasing start columns. -/
theorem scanWithFuel_pairwise (k : PatternKind) :
    ∀ (fuel : Nat) (s : List Char) (pos : Nat),
      (scanWithFuel k fuel s pos).Pairwise
        (fun a b : Nat × Nat × List Char => a.1 < b.1) := by
  intro fuel
  induction fuel with
  | zero => intro s pos; simp [scanWithFuel]
  | succ fuel ih =>
    intro s pos
    cases s with
    | nil => simp [scanWithFuel]
    | cons c rest =>
      simp only [scanWithFuel]
      split
      · rename_i x m ds hm
        refine List.Pairwise.cons ?_ (ih _ _)
        intro b hb
        obtain ⟨b1, b2, b3⟩ := b
        have ht := scanWithFuel_mem k fuel _ _ _ _ _ hb
        have hmb := matchAtSuffix_bounds k (c :: rest) m ds hm
        show pos < b1
        omega
      · exact ih _ _

/-- Every match recorded by one pattern's scan of a line spans at least two
characters and ends inside the line. -/
theorem execPattern_mem (k : PatternKind) (line : List Char) (i n : Nat) (cs : List Char)
    (h : (i, n, cs) ∈ execPattern k line) : 2 ≤ n ∧ i + n ≤ line.length := by
  have hb := scanWithFuel_mem k line.length line 0 i n cs h
  omega

/-- One pattern's scan of a line lists matches by strictly increasing start
column. -/
theorem execPattern_pairwise (k : PatternKind) (line : List Char) :
    (execPattern k line).Pairwise (fun a b : Nat × Nat × List Char => a.1 < b.1) :=
  scanWithFuel_pairwise k line.length line 0


/-- A filterMap whose function is an if-then-some-else-none is a filter
followed by a map. -/
theorem filterMap_guard_eq_map_filter {α β : Type} (p : α → Bool) (g : α → β) :
    ∀ l : List α,
      (l.filterMap fun x => if p x then some (g x) else none) = (l.filter p).map g := by
  intro l
  induction l with
  | nil => rfl
  | cons a t ih =>
    by_cases hp : p a
    · simp [List.filterMap_cons, List.filter_cons, hp, ih]
    · simp [List.filterMap_cons, List.filter_cons, hp, ih]

/-- The acceptance filter forces a trimmed length of at least two. -/
theorem keepString_trim {cs : List Char} (h : keepString cs = true) :
    2 ≤ (jsTrim cs).length := by
  unfold keepString at h
  rw [Bool.and_eq_true] at h
  have h1 := h.1
  rw [Bool.not_eq_true'] at h1
  rw [Bool.or_eq_false_iff] at h1
  have h2 := h1.2
  simp only [decide_eq_false_iff_not, not_lt] at h2
  exact h2

/-- The acceptance filter only keeps content the looks-like-code filter
does not reject. -/
theorem keepString_not_code {cs : List Char} (h : keepString cs = true) :
    looksLikeCode cs = false := by
  unfold keepString at h
  rw [Bool.and_eq_true] at h
  have h2 := h.2
  rwa [Bool.not_eq_true'] at h2

/-- Inversion for the extractor: every emitted detection is built from an
accepted match of one of the language's patterns. -/
theorem extract_mem_inv {line : List Char} {idx : Nat} {L : String} {d : DetectedString}
    (hd : d ∈ extractStringsFromLine line idx L) :
    ∃ p ∈ getStringPatterns L, ∃ i n cs, (i, n, cs) ∈ execPattern p.kind line ∧
      keepString cs = true ∧
      d = { text := cs, line := idx, startChar := i, endChar := i + n,
            quoteType := p.name, languageId := L } := by
  unfold extractStringsFromLine at hd
  rw [List.mem_flatMap] at hd
  obtain ⟨p, hp, hd⟩ := hd
  rw [List.mem_filterMap] at hd
  obtain ⟨m, hm, hsome⟩ := hd
  split at hsome
  · rename_i hk
    injection hsome with hd'
    exact ⟨p, hp, m.1, m.2.1, m.2.2, by simpa using hm, hk, hd'.symm⟩
  · simp at hsome

/-- C3: every emitted detection starts before it ends, ends inside the raw
text of its line (the line being the segment between line-feed splits), and
carries text whose trimmed length is at least two.  Start and end columns
are natural numbers, so they are nonnegative by type. -/
theorem c3_detection_invariants (D : List Char) (L : String) (d : DetectedString)
    (hd : d ∈ detectStrings D L) :
    d.startChar < d.endChar ∧
    d.line < (splitOnNl D).length ∧
    d.endChar ≤ ((splitOnNl D).getD d.line []).length ∧
    2 ≤ (jsTrim d.text).length := by
  unfold detectStrings at hd
  rw [List.mem_flatMap] at hd
  obtain ⟨il, hil, hd⟩ := hd
  obtain ⟨i, ln⟩ := il
  have henum := List.mem_enum hil
  obtain ⟨p, hp, j, n, cs, hm, hk, hdEq⟩ := extract_mem_inv hd
  have hb := execPattern_mem p.kind ln j n cs hm
  subst hdEq
  refine ⟨?_, ?_, ?_, keepString_trim hk⟩
  · show j < j + n
    omega
  · exact henum.1
  · show j + n ≤ ((splitOnNl D).getD i []).length
    rw [List.getD_eq_getElem (splitOnNl D) [] henum.1]
    rw [← henum.2]
    exact hb.2

/-- C3 (witness): the invariant instantiated on a concrete document. -/
theorem c3_detection_invariants_witness :
    c3Sample ∈ detectStrings ("\"good morning\"").data "plaintext" ∧
    c3Sample.startChar < c3Sample.endChar :=
  ⟨by decide,
   (c3_detection_invariants ("\"good morning\"").data "plaintext" c3Sample (by decide)).1⟩

/-- C9: no emitted detection's text contains a brace, bracket, parenthesis,
semicolon or comma: such content is rejected by the code-punctuation
heuristic, so string literals containing them are never reported. -/
theorem c9_no_code_punctuation (D : List Char) (L : String) (d : DetectedString)
    (hd : d ∈ detectStrings D L) :
    ∀ c ∈ d.text,
      ¬(c = '{' ∨ c = '}' ∨ c = '[' ∨ c = ']' ∨
        c = '(' ∨ c = ')' ∨ c = ';' ∨ c = ',') := by
  unfold detectStrings at hd
  rw [List.mem_flatMap] at hd
  obtain ⟨il, hil, hd⟩ := hd
  obtain ⟨p, hp, j, n, cs, hm, hk, hdEq⟩ := extract_mem_inv hd
  have hcode := keepString_not_code hk
  unfold looksLikeCode at hcode
  simp only [Bool.or_eq_false_iff] at hcode
  obtain ⟨⟨⟨⟨⟨⟨⟨⟨hcIdent, hcDigits⟩, hcFile⟩, hcSel⟩, hpunct⟩, hcBlank⟩, hcKv⟩, hcCall⟩, hcOp⟩ := hcode
  unfold hasCodePunct at hpunct
  rw [List.any_eq_false] at hpunct
  intro c hc
  subst hdEq
  have hcps := hpunct c (by simpa using hc)
  unfold isCodePunct at hcps
  simp only [Bool.or_eq_true, decide_eq_true_eq, not_or] at hcps
  tauto

/-- C9 (witness): the no-punctuation property instantiated on a concrete
document and detection. -/
theorem c9_no_code_punctuation_witness :
    c9Sample ∈ detectStrings ("s = 'nice day today'").data "plaintext" ∧
    ∀ c ∈ c9Sample.text,
      ¬(c = '{' ∨ c = '}' ∨ c = '[' ∨ c = ']' ∨
        c = '(' ∨ c = ')' ∨ c = ';' ∨ c = ',') :=
  ⟨by decide,
   c9_no_code_punctuation ("s = 'nice day today'").data "plaintext" c9Sample (by decide)⟩


/-- Index-enumerated lists pair strictly increasing indices. -/
theorem enumFrom_pairwise {α : Type} (l : List α) :
    ∀ n : Nat, (List.enumFrom n l).Pairwise (fun a b => a.1 < b.1) := by
  induction l with
  | nil => intro n; simp
  | cons x t ih =>
    intro n
    rw [List.enumFrom_cons]
    refine List.Pairwise.cons ?_ (ih (n + 1))
    intro b hb
    obtain ⟨bi, bx⟩ := b
    have hbi := List.mem_enumFrom hb
    show n < bi
    omega

/-- The enumeration of the line list pairs strictly increasing indices. -/
theorem enum_pairwise {α : Type} (l : List α) :
    l.enum.Pairwise (fun a b => a.1 < b.1) :=
  enumFrom_pairwise l 0

/-- The dialect switch produces one of four concrete pattern lists. -/
theorem getStringPatterns_cases (L : String) :
    getStringPatterns L = basePatterns ++ [⟨"template", .quote backtick⟩] ∨
    getStringPatterns L =
      basePatterns ++
        [⟨"triple-double", .triple '"'⟩, ⟨"triple-single", .triple singleQuote⟩] ∨
    getStringPatterns L = basePatterns ++ [⟨"verbatim", .verbatim⟩] ∨
    getStringPatterns L = basePatterns := by
  unfold getStringPatterns
  split
  · exact Or.inl rfl
  · split
    · exact Or.inr (Or.inl rfl)
    · split
      · exact Or.inr (Or.inr (Or.inl rfl))
      · split
        · exact Or.inr (Or.inr (Or.inr rfl))
        · exact Or.inr (Or.inr (Or.inr rfl))

/-- Along every language's pattern list the rank of the pattern names is
strictly increasing: the names are distinct and listed in application
order. -/
theorem patterns_rank_pairwise (L : String) :
    (getStringPatterns L).Pairwise
      (fun p q => patternRank L p.name < patternRank L q.name) := by
  have hc := getStringPatterns_cases L
  rcases hc with h | h | h | h <;> simp only [patternRank, h] <;> decide

/-- Every detection built from one pattern carries that pattern's name as
its quote kind. -/
theorem inner_mem_quoteType {p : StringPattern} {line : List Char} {idx : Nat}
    {L : String} {x : DetectedString}
    (hx : x ∈ (execPattern p.kind line).filterMap fun m =>
        if keepString m.2.2 then
          some { text := m.2.2, line := idx, startChar := m.1, endChar := m.1 + m.2.1,
                 quoteType := p.name, languageId := L }
        else none) :
    x.quoteType = p.name := by
  rw [List.mem_filterMap] at hx
  obtain ⟨m, hm, hsome⟩ := hx
  split at hsome
  · injection hsome with hx'
    rw [← hx']
  · simp at hsome

/-- The detections built from one pattern on one line have strictly
increasing start columns. -/
theorem inner_pairwise (p : StringPattern) (line : List Char) (idx : Nat) (L : String) :
    ((execPattern p.kind line).filterMap fun m =>
        if keepString m.2.2 then
          some ({ text := m.2.2, line := idx, startChar := m.1, endChar := m.1 + m.2.1,
                  quoteType := p.name, languageId := L } : DetectedString)
        else none).Pairwise
      (fun a b => a.startChar < b.startChar) := by
  rw [filterMap_guard_eq_map_filter (fun m : Nat × Nat × List Char => keepString m.2.2)
    (fun m : Nat × Nat × List Char =>
      ({ text := m.2.2, line := idx, startChar := m.1, endChar := m.1 + m.2.1,
         quoteType := p.name, languageId := L } : DetectedString))]
  rw [List.pairwise_map]
  exact List.Pairwise.sublist (List.filter_sublist _) (execPattern_pairwise p.kind line)

/-- One line's extracted detections are ordered by pattern rank first and by
start column inside one pattern. -/
theorem extract_pairwise_order (line : List Char) (idx : Nat) (L : String) :
    (extractStringsFromLine line idx L).Pairwise
      (fun a b => patternRank L a.quoteType < patternRank L b.quoteType ∨
        (a.quoteType = b.quoteType ∧ a.startChar < b.startChar)) := by
  unfold extractStringsFromLine
  rw [List.pairwise_flatMap]
  constructor
  · intro p hp
    refine List.Pairwise.imp_of_mem ?_ (inner_pairwise p line idx L)
    intro a b ha hb hab
    exact Or.inr ⟨by rw [inner_mem_quoteType ha, inner_mem_quoteType hb], hab⟩
  · refine List.Pairwise.imp_of_mem ?_ (patterns_rank_pairwise L)
    intro p q hpmem hqmem hrank x hx y hy
    exact Or.inl (by rw [inner_mem_quoteType hx, inner_mem_quoteType hy]; exact hrank)

/-- Every detection extracted from a line records that line's index. -/
theorem extract_mem_line {line : List Char} {idx : Nat} {L : String} {d : DetectedString}
    (hd : d ∈ extractStringsFromLine line idx L) : d.line = idx := by
  obtain ⟨p, hp, i, n, cs, hm, hk, hdEq⟩ := extract_mem_inv hd
  rw [hdEq]

/-- C2 (amended): the detection sequence is sorted by line ascending; within
a line, detections are grouped by pattern in application order (the rank of
the quote kind in the language's pattern list), and only within one pattern
group is the start column ascending.  Start columns of different pattern
groups on the same line are not ordered. -/
theorem c2_amended_ordering (D : List Char) (L : String) :
    (detectStrings D L).Pairwise
      (fun a b => a.line < b.line ∨
        (a.line = b.line ∧
          (patternRank L a.quoteType < patternRank L b.quoteType ∨
           (a.quoteType = b.quoteType ∧ a.startChar < b.startChar)))) := by
  unfold detectStrings
  rw [List.pairwise_flatMap]
  constructor
  · rintro ⟨i, ln⟩ hmem
    refine List.Pairwise.imp_of_mem ?_ (extract_pairwise_order ln i L)
    intro a b ha hb hab
    exact Or.inr ⟨by rw [extract_mem_line ha, extract_mem_line hb], hab⟩
  · refine List.Pairwise.imp_of_mem ?_ (enum_pairwise (splitOnNl D))
    intro a b ha hb hlt x hx y hy
    obtain ⟨i, ln⟩ := a
    obtain ⟨j, ln2⟩ := b
    exact Or.inl (by rw [extract_mem_line hx, extract_mem_line hy]; exact hlt)

/-- The php case of the dialect switch adds no pattern. -/
theorem getStringPatterns_php : getStringPatterns "php" = basePatterns := by
  decide

/-- C10: on every document, detection under the php dialect agrees with
detection under any unrecognized dialect, record for record, up to the
carried language identifier: both use only the two base patterns. -/
theorem c10_php_matches_generic (D : List Char) (L : String)
    (h : L ∉ knownLanguageIds) :
    (detectStrings D "php").map (fun d => { d with languageId := L }) =
      detectStrings D L := by
  simp only [detectStrings, extractStringsFromLine, getStringPatterns_php,
    getStringPatterns_eq_base L h]
  rw [List.map_flatMap]
  congr 1
  funext il
  rw [List.map_flatMap]
  congr 1
  funext p
  rw [List.map_filterMap]
  congr 1
  funext m
  by_cases hk : keepString m.2.2
  · simp [hk]
  · simp [hk]

/-- C10 (witness): the agreement instantiated on a concrete document and
the unrecognized identifier `ruby`. -/
theorem c10_php_matches_generic_witness :
    "ruby" ∉ knownLanguageIds ∧
    (detectStrings ("say \"hi folks\"").data "php").map
        (fun d => { d with languageId := "ruby" }) =
      detectStrings ("say \"hi folks\"").data "ruby" :=
  ⟨by decide, c10_php_matches_generic ("say \"hi folks\"").data "ruby" (by decide)⟩

/-- C1 (counterexample): on the spec's end-to-end line the detector emits no
detection at all: the candidate content contains a comma, which the
code-punctuation heuristic rejects. -/
theorem c1_end_to_end_counterexample :
    detectStrings ("const greeting = \"Hello, world!\";").data "typescript" = [] := by
  decide

/-- C1 (amended): on the line `const greeting = "Hello, world!";` with
language `typescript` the detector returns no detections: the quoted
content `Hello, world!` is rejected by the looks-like-code filter because
it contains a comma, and in particular no detection is emitted for the
bare identifiers either. -/
theorem c1_end_to_end_amended :
    detectStrings ("const greeting = \"Hello, world!\";").data "typescript" = [] ∧
    looksLikeCode ("Hello, world!").data = true ∧
    hasCodePunct ("Hello, world!").data = true := by
  refine ⟨by decide, by decide, by decide⟩

/-- C2 (counterexample): detections on one line are not sorted by start
column: on `x = 'hello world' + "bye now"` the double-quote pattern runs
first and emits the later match before the single-quote match. -/
theorem c2_sorted_counterexample :
    ¬ List.Pairwise
        (fun a b : DetectedString =>
          a.line < b.line ∨ (a.line = b.line ∧ a.startChar ≤ b.startChar))
        (detectStrings ("x = 'hello world' + \"bye now\"").data "plaintext") := by
  decide

/-- C4 (counterexample): on the verbatim-string line with language `csharp`
the detector returns two detections, not one: the base double-quote
pattern also fires inside the verbatim literal. -/
theorem c4_verbatim_counterexample :
    (detectStrings ("@\"a \"\"quoted\"\" word\"").data "csharp").length = 2 := by
  decide

/-- C4 (amended): on the line with a verbatim literal containing doubled
quotes, the detector emits exactly two detections: a spurious `double`
detection for the trailing segment, then a `verbatim` detection whose text
contains the doubled-quote sequence literally, not unescaped. -/
theorem c4_verbatim_amended :
    detectStrings ("@\"a \"\"quoted\"\" word\"").data "csharp" =
      [{ text := (" word").data, line := 0, startChar := 13, endChar := 20,
         quoteType := "double", languageId := "csharp" },
       { text := ("a \"\"quoted\"\" word").data, line := 0, startChar := 0, endChar := 20,
         quoteType := "verbatim", languageId := "csharp" }] := by
  decide

/-- C5: a backtick-delimited line yields a `template` detection for each
ECMAScript-family language identifier, and yields no detection for every
language identifier outside the dialect switch. -/
theorem c5_template_dialect_gating :
    (detectStrings ("`hi there`").data "javascript" =
      [{ text := ("hi there").data, line := 0, startChar := 0, endChar := 10,
         quoteType := "template", languageId := "javascript" }]) ∧
    (detectStrings ("`hi there`").data "typescript" =
      [{ text := ("hi there").data, line := 0, startChar := 0, endChar := 10,
         quoteType := "template", languageId := "typescript" }]) ∧
    (detectStrings ("`hi there`").data "javascriptreact" =
      [{ text := ("hi there").data, line := 0, startChar := 0, endChar := 10,
         quoteType := "template", languageId := "javascriptreact" }]) ∧
    (detectStrings ("`hi there`").data "typescriptreact" =
      [{ text := ("hi there").data, line := 0, startChar := 0, endChar := 10,
         quoteType := "template", languageId := "typescriptreact" }]) ∧
    (∀ L : String, L ∉ knownLanguageIds → detectStrings ("`hi there`").data L = []) := by
  refine ⟨by decide, by decide, by decide, by decide, ?_⟩
  intro L hL
  simp only [detectStrings, extractStringsFromLine, getStringPatterns_eq_base L hL]
  rfl

/-- C5 (witness): the gated branch of `c5_template_dialect_gating` applied
to the unrecognized language identifier `plaintext`. -/
theorem c5_template_dialect_gating_witness :
    "plaintext" ∉ knownLanguageIds ∧
    detectStrings ("`hi there`").data "plaintext" = [] :=
  ⟨by decide, c5_template_dialect_gating.2.2.2.2 "plaintext" (by decide)⟩

/-- C6: the rejection laws on single-line documents: a digits-only body and
a single-identifier body are rejected, a two-word body is emitted as one
`double` detection. -/
theorem c6_rejection_laws :
    detectStrings ("\"42\"").data "plaintext" = [] ∧
    detectStrings ("\"x\"").data "plaintext" = [] ∧
    detectStrings ("\"hello world\"").data "plaintext" =
      [{ text := ("hello world").data, line := 0, startChar := 0, endChar := 13,
         quoteType := "double", languageId := "plaintext" }] := by
  refine ⟨by decide, by decide, by decide⟩

/-- C7: the try-catch of `detectStrings` maps any error raised by the
scanning loop to the empty detection list, and passes a successful scan
through unchanged: no exception reaches the caller. -/
theorem c7_scan_errors_caught :
    (∀ e : ScanError, detectStringsCaught (Except.error e) = []) ∧
    (∀ found : List DetectedString, detectStringsCaught (Except.ok found) = found) :=
  ⟨fun _ => rfl, fun _ => rfl⟩

/-- C8: detection is deterministic and idempotent: the embedded detector is
a pure function of the document text and the language identifier (the
per-pattern scan cursor is recreated for every line, and the result list
is rebuilt from scratch on every call), so repeating a call yields an
identical sequence. -/
theorem c8_detect_idempotent (D : List Char) (L : String) :
    detectStrings D L = detectStrings D L := rfl

end TextTranslator
